import Mathlib

/-!
The delivery handle of amqptrace.

A shallow embedding of `delivery.go`.  `DeliveryHandle.Do` talks to three
collaborators that are not pure functions of the package: the tracer
(`trace.Tracer`), the span it returns (`trace.Span`) and the caller's handler
function.  The embedding makes every call `Do` performs on them an `Event`, in
program order, and returns the list of events together with the way control
leaves `Do` (normal return, or a panic that propagates to the caller).

`Extract` belongs to the package but lives in another file; `Do` takes it as a
parameter.  The few library functions `Do` calls (`context`, `correlation`,
`kv`, `trace`) are modelled by their documented behaviour.
-/

namespace amqptrace

/-! ## Library data: `kv`, `trace`, `correlation`, `context` -/

/-- The typed value of a `kv.KeyValue` (the numeric and array variants that
`Do` never builds are folded into `INT64`). -/
inductive Value where
  | BOOL (b : Bool)
  | INT64 (i : Int)
  | STRING (s : String)
deriving DecidableEq, Repr

/-- A `kv.KeyValue`: a key and a typed value. -/
structure KeyValue where
  Key : String
  Value : Value
deriving DecidableEq, Repr

/-- `kv.String(k, v)`. -/
def kvString (k v : String) : KeyValue := ⟨k, Value.STRING v⟩

/-- `kv.Key(k).String(v)`. -/
def keyString (k v : String) : KeyValue := ⟨k, Value.STRING v⟩

/-- A `trace.SpanContext`: trace identifier (128 bit), span identifier
(64 bit) and trace flags (one byte; bit 0 is the sampling flag). -/
structure SpanContext where
  TraceID : Nat
  SpanID : Nat
  TraceFlags : Nat
deriving DecidableEq, Repr

/-- `trace.EmptySpanContext()`: the zero value. -/
def EmptySpanContext : SpanContext := ⟨0, 0, 0⟩

/-- `SpanContext.IsValid`: both identifiers are non-zero. -/
def SpanContext.IsValid (sc : SpanContext) : Bool :=
  sc.TraceID != 0 && sc.SpanID != 0

/-- `SpanContext.IsSampled`: bit 0 of the trace flags. -/
def SpanContext.IsSampled (sc : SpanContext) : Bool :=
  sc.TraceFlags % 2 == 1

/-- A `correlation.Map`: at most one value per key. -/
structure Map where
  m : List (String × Value)
deriving DecidableEq, Repr

/-- `correlation.NewEmptyMap()`. -/
def NewEmptyMap : Map := ⟨[]⟩

/-- `r[k] = v` on the raw map of a `correlation.Map`. -/
def Map.set (r : Map) (k : String) (v : Value) : Map :=
  ⟨(k, v) :: r.m.filter (fun p => p.1 != k)⟩

/-- `Map.Value(k)`: the value stored under `k`, if any. -/
def Map.get (r : Map) (k : String) : Option Value :=
  r.m.lookup k

/-- `correlation.MapUpdate`, with the one field `Do` fills in; the others stay
at their zero value, for which `Apply` drops and adds nothing. -/
structure MapUpdate where
  MultiKV : List KeyValue
deriving DecidableEq, Repr

/-- `Map.Apply(update)`: the entries of `MultiKV` are written in order. -/
def Map.Apply (r : Map) (update : MapUpdate) : Map :=
  update.MultiKV.foldl (fun acc e => acc.set e.Key e.Value) r

/-- `correlation.NewMap(update)`. -/
def NewMap (update : MapUpdate) : Map :=
  NewEmptyMap.Apply update

/-- A `trace.Span` handle, as the tracer hands it out, with the span context
its `SpanContext()` returns. -/
structure Span where
  id : Nat
  SpanContext : SpanContext
deriving DecidableEq, Repr

/-- One `context.WithValue` layer, for the keys this program's libraries use. -/
inductive ctxValue where
  | correlations (m : Map)
  | remoteSpanContext (sc : SpanContext)
  | currentSpan (s : Span)
deriving DecidableEq, Repr

/-- A `context.Context`: the layers of values, innermost first. -/
abbrev Context := List ctxValue

/-- `context.Background()`: no value at all. -/
def Background : Context := []

/-- `correlation.ContextWithMap(ctx, m)`. -/
def ContextWithMap (ctx : Context) (m : Map) : Context :=
  ctxValue.correlations m :: ctx

/-- `correlation.MapFromContext(ctx)`: the innermost map, else the empty one. -/
def MapFromContext : Context → Map
  | [] => NewEmptyMap
  | ctxValue.correlations m :: _ => m
  | _ :: rest => MapFromContext rest

/-- `trace.ContextWithRemoteSpanContext(ctx, sc)`. -/
def ContextWithRemoteSpanContext (ctx : Context) (sc : SpanContext) : Context :=
  ctxValue.remoteSpanContext sc :: ctx

/-- `trace.RemoteSpanContextFromContext(ctx)`: the innermost remote span
context, else the zero value. -/
def RemoteSpanContextFromContext : Context → SpanContext
  | [] => EmptySpanContext
  | ctxValue.remoteSpanContext sc :: _ => sc
  | _ :: rest => RemoteSpanContextFromContext rest

/-- The span a context carries as current (`trace.SpanFromContext`), if any. -/
def SpanFromContext : Context → Option Span
  | [] => none
  | ctxValue.currentSpan s :: _ => some s
  | _ :: rest => SpanFromContext rest

/-- The parent of a span about to be started. -/
inductive Parent where
  | current (s : Span)
  | remote (sc : SpanContext)
  | root
deriving DecidableEq, Repr

/-- The parent the context offers when it has no usable current span: the
remote span context if that is valid, else none (the new span is a root). -/
def remoteParentOf (ctx : Context) : Parent :=
  if (RemoteSpanContextFromContext ctx).IsValid then
    Parent.remote (RemoteSpanContextFromContext ctx)
  else Parent.root

/-- The parent a tracer derives from the context `Start` is called with: the
current span of the context if it has one with a valid span context, else the
remote span context if that is valid, else none (the new span is a root). -/
def parentOf (ctx : Context) : Parent :=
  match SpanFromContext ctx with
  | some s => if s.SpanContext.IsValid then Parent.current s else remoteParentOf ctx
  | none => remoteParentOf ctx

/-- `trace.SpanKind`. -/
inductive SpanKind where
  | SpanKindUnspecified
  | SpanKindInternal
  | SpanKindServer
  | SpanKindClient
  | SpanKindProducer
  | SpanKindConsumer
deriving DecidableEq, Repr

/-- A `trace.StartOption` as `Do` can pass it to `Start`. -/
inductive StartOption where
  | WithSpanKind (kind : SpanKind)
  | WithAttributes (attrs : List KeyValue)
  | WithNewRoot
deriving DecidableEq, Repr

/-- `trace.StartConfig`: what the options of one `Start` call add up to. -/
structure StartConfig where
  Attributes : List KeyValue
  NewRoot : Bool
  SpanKind : SpanKind
deriving DecidableEq, Repr

/-- One option applied to the configuration. -/
def StartOption.apply : StartOption → StartConfig → StartConfig
  | StartOption.WithSpanKind kind, c => ⟨c.Attributes, c.NewRoot, kind⟩
  | StartOption.WithAttributes attrs, c => ⟨c.Attributes ++ attrs, c.NewRoot, c.SpanKind⟩
  | StartOption.WithNewRoot, c => ⟨c.Attributes, true, c.SpanKind⟩

/-- The configuration a tracer computes from the options of a `Start` call,
beginning with the zero value. -/
def startConfig (opts : List StartOption) : StartConfig :=
  opts.foldl (fun c o => o.apply c) ⟨[], false, SpanKind.SpanKindUnspecified⟩

/-- The span kinds the options of a `Start` call ask for. -/
def requestedKinds : List StartOption → List SpanKind
  | [] => []
  | StartOption.WithSpanKind kind :: rest => kind :: requestedKinds rest
  | _ :: rest => requestedKinds rest

/-- A `trace.Tracer`: `Start` returns the context for the span and the span. -/
structure Tracer where
  Start : Context → String → List StartOption → Context × Span

/-! ## The broker message and the handler function -/

/-- A value of an `amqp.Table` (header field). -/
inductive FieldValue where
  | null
  | bool (b : Bool)
  | int (i : Int)
  | string (s : String)
  | bytes (b : List Nat)
deriving DecidableEq, Repr

/-- An `amqp.Table`: the header fields of a message. -/
abbrev Table := List (String × FieldValue)

/-- The fields of `amqp.Delivery` the specification names. -/
structure Delivery where
  Headers : Table
  ContentType : String
  Exchange : String
  RoutingKey : String
  Body : List Nat
deriving DecidableEq, Repr

/-- A non-nil Go `error`: a value whose `Error()` is the description. -/
structure GoError where
  Error : String
deriving DecidableEq, Repr

/-- The ways one call of the handler function ends: it returns an `error`
(`none` is `nil`), or it panics with some value.  Calling a nil function
value is a panic as well. -/
inductive HandlerResult where
  | returns (err : Option GoError)
  | panics (v : String)
deriving DecidableEq, Repr

/-- The handler function `func(context.Context, amqp.Delivery) error`. -/
abbrev Handler := Context → Delivery → HandlerResult

/-- A Go `interface{}` value as `Span.SetAttribute` receives it. -/
inductive AnyValue where
  | ofString (s : String)
  | ofError (e : GoError)
deriving DecidableEq, Repr

/-- The attribute `Span.SetAttribute(k, value)` records: the key with the value
`kv.Infer` gives it.  A string is kept; an error value is no basic kind, so it
is printed with `fmt.Sprint`, which prints its `Error()` text. -/
def kvInfer (k : String) : AnyValue → KeyValue
  | AnyValue.ofString s => kvString k s
  | AnyValue.ofError e => kvString k e.Error

/-- A call `Do` makes on one of its collaborators. -/
inductive Event where
  | Start (ctx : Context) (spanName : String) (opts : List StartOption)
  | Handle (ctx : Context) (msg : Delivery)
  | SetAttribute (span : Span) (key : String) (value : AnyValue)
  | End (span : Span)
deriving DecidableEq, Repr

/-- How control leaves `Do`. -/
inductive Exit where
  | returned
  | panicked (v : String)
deriving DecidableEq, Repr

/-- One run of `Do`: the calls it made, in order, and how it ended. -/
structure Run where
  events : List Event
  exit : Exit
deriving DecidableEq, Repr

/-! ## `delivery.go` -/

/-- The private configuration record of a handle. -/
structure deliveryHandleOptions where
  componentName : String
deriving DecidableEq, Repr

/-- An option function: it updates the configuration record. -/
abbrev DeliveryHandleOption := deliveryHandleOptions → deliveryHandleOptions

/-- The option that sets the component name. -/
def DeliveryHandleComopenentName (componentName : String) : DeliveryHandleOption :=
  fun o => { o with componentName := componentName }

/-- The default record, then every option in order. -/
def applyDeliveryHandleOptions (opts : List DeliveryHandleOption) : deliveryHandleOptions :=
  opts.foldl (fun o opt => opt o) ⟨"net/amqp"⟩

/-- The trace handler of the delivery, with the two fields `NewDeliveryHandle`
fills in: the tracer and the options record. -/
structure DeliveryHandle where
  tracer : Tracer
  opts : deliveryHandleOptions

/-- Create a `DeliveryHandle`. -/
def NewDeliveryHandle (tracer : Tracer) (opts : List DeliveryHandleOption) : DeliveryHandle :=
  ⟨tracer, applyDeliveryHandleOptions opts⟩

/-- The signature of the package's `Extract`. -/
abbrev Extractor := Context → Table → List KeyValue × SpanContext

/-- The context `Do` hands to `Start`. -/
def startContext (Extract : Extractor) (msg : Delivery) : Context :=
  let ctx := Background
  let decoded := Extract ctx msg.Headers
  let ctx := ContextWithMap ctx (NewMap ⟨decoded.1⟩)
  ContextWithRemoteSpanContext ctx decoded.2

/-- The span name `Do` hands to `Start`. -/
def spanName (msg : Delivery) : String :=
  msg.Exchange ++ "." ++ msg.RoutingKey

/-- The options `Do` hands to `Start`. -/
def startOptions (h : DeliveryHandle) (msg : Delivery) : List StartOption :=
  [ StartOption.WithSpanKind SpanKind.SpanKindServer,
    StartOption.WithAttributes
      [ kvString "exchange" msg.Exchange,
        kvString "routekey" msg.RoutingKey,
        kvString "content-type" msg.ContentType,
        keyString "component" h.opts.componentName ] ]

/-- The calls between `defer span.End()` and the exit of `Do`, and the exit:
the handler runs; a non-nil error is set on the span; a panic of the handler
leaves the body at once. -/
def handleBody (span : Span) (ctx : Context) (msg : Delivery) (handle : Handler) :
    List Event × Exit :=
  match handle ctx msg with
  | HandlerResult.returns none => ([Event.Handle ctx msg], Exit.returned)
  | HandlerResult.returns (some err) =>
    ([Event.Handle ctx msg, Event.SetAttribute span "error" (AnyValue.ofError err)],
      Exit.returned)
  | HandlerResult.panics v => ([Event.Handle ctx msg], Exit.panicked v)

/-- What the tracer's `Start` returns to `Do`: the context and the span. -/
def DeliveryHandle.started (Extract : Extractor) (h : DeliveryHandle) (msg : Delivery) :
    Context × Span :=
  h.tracer.Start (startContext Extract msg) (spanName msg) (startOptions h msg)

/-- `DeliveryHandle.Do`.  The deferred `span.End()` runs when the body is left,
by return or by panic. -/
def DeliveryHandle.Do (Extract : Extractor) (h : DeliveryHandle) (msg : Delivery)
    (handle : Handler) : Run :=
  let started := h.started Extract msg
  let ctx := started.1
  let span := started.2
  let body := handleBody span ctx msg handle
  ⟨Event.Start (startContext Extract msg) (spanName msg) (startOptions h msg)
      :: (body.1 ++ [Event.End span]),
    body.2⟩

/-! ## Reading a run -/

/-- The event is a call of the tracer's `Start`. -/
def Event.isStart : Event → Bool
  | Event.Start _ _ _ => true
  | _ => false

/-- The event is a call of the handler function. -/
def Event.isHandle : Event → Bool
  | Event.Handle _ _ => true
  | _ => false

/-- The event is a call of `SetAttribute` on a span. -/
def Event.isSetAttribute : Event → Bool
  | Event.SetAttribute _ _ _ => true
  | _ => false

/-- The event is a call of `End` on a span. -/
def Event.isEnd : Event → Bool
  | Event.End _ => true
  | _ => false

/-- The context of a `Start` call. -/
def Event.startContext? : Event → Option Context
  | Event.Start ctx _ _ => some ctx
  | _ => none

/-- The span name of a `Start` call. -/
def Event.startName? : Event → Option String
  | Event.Start _ n _ => some n
  | _ => none

/-- The options of a `Start` call. -/
def Event.startOptions? : Event → Option (List StartOption)
  | Event.Start _ _ opts => some opts
  | _ => none

/-- The attribute an event records on `span`: the one a `SetAttribute` call on
that span sets. -/
def Event.attributeOn (span : Span) : Event → Option KeyValue
  | Event.SetAttribute s key value => if s = span then some (kvInfer key value) else none
  | _ => none

/-- What `Do` does on the span for the `error` the handler returned. -/
def errorEvents (span : Span) : Option GoError → List Event
  | none => []
  | some err => [Event.SetAttribute span "error" (AnyValue.ofError err)]

/-- The value written last under key `k` by a list of entries, if any. -/
def lastValue (k : String) : List KeyValue → Option Value
  | [] => none
  | e :: es =>
    match lastValue k es with
    | some v => some v
    | none => if e.Key = k then some e.Value else none

/-! ## Sample collaborators -/

/-- The span the sample tracer hands out. -/
def sampleSpan : Span := ⟨7, ⟨10, 12, 1⟩⟩

/-- A tracer that hands out the sample span and makes it the current span of
the context it was given. -/
def sampleTracer : Tracer :=
  ⟨fun ctx _ _ => (ctxValue.currentSpan sampleSpan :: ctx, sampleSpan)⟩

/-- A decoder that reads every string header as a correlation entry and finds
the remote span context (trace 10, span 11, sampled). -/
def sampleExtract : Extractor :=
  fun _ headers =>
    (headers.filterMap (fun p =>
        match p.2 with
        | FieldValue.string s => some ⟨p.1, Value.STRING s⟩
        | _ => none),
      ⟨10, 11, 1⟩)

/-- A decoder whose entries write the key `k` twice. -/
def twiceExtract : Extractor :=
  fun _ _ =>
    ([⟨"k", Value.STRING "first"⟩, ⟨"j", Value.STRING "x"⟩, ⟨"k", Value.STRING "second"⟩],
      EmptySpanContext)

/-- A decoder that finds nothing. -/
def emptyExtract : Extractor :=
  fun _ _ => ([], EmptySpanContext)

/-- A message on exchange `orders` with routing key `created`. -/
def sampleMsg : Delivery :=
  ⟨[("user", FieldValue.string "ann"), ("n", FieldValue.int 3)], "text/plain",
    "orders", "created", [104, 105]⟩

/-- A handler that succeeds. -/
def okHandler : Handler := fun _ _ => HandlerResult.returns none

/-- A handler that fails with description `boom`. -/
def boomHandler : Handler := fun _ _ => HandlerResult.returns (some ⟨"boom"⟩)

/-- A handler that panics. -/
def panicHandler : Handler := fun _ _ => HandlerResult.panics "index out of range"

/-- A handle with the default options. -/
def sampleHandle : DeliveryHandle := NewDeliveryHandle sampleTracer []

/-! ## Lemmas on the correlation map -/

theorem Map.get_set (r : Map) (k k' : String) (v : Value) :
    (r.set k v).get k' = if k = k' then some v else r.get k' := by
  unfold Map.set Map.get
  by_cases hk : k = k'
  · subst hk
    simp [List.lookup]
  · have hk' : (k' == k) = false := by
      simp only [beq_eq_false_iff_ne, ne_eq]
      exact fun h => hk h.symm
    simp only [List.lookup, hk', hk, if_false]
    induction r.m with
    | nil => rfl
    | cons p ps ih =>
      by_cases hp : p.1 = k
      · have hne : (k' == p.1) = false := by
          simp only [beq_eq_false_iff_ne, ne_eq]
          intro h
          exact hk (hp ▸ h.symm)
        simp only [List.filter, hp, bne_self_eq_false]
        rw [ih]
        obtain ⟨a, b⟩ := p
        simp only at hne hp
        simp only [List.lookup, hne]
      · have hb : (p.1 != k) = true := by
          simp only [bne_iff_ne, ne_eq]
          exact hp
        simp only [List.filter, hb]
        obtain ⟨a, b⟩ := p
        simp only [List.lookup]
        rw [ih]

theorem Map.get_foldl_set (k : String) (es : List KeyValue) (r : Map) :
    (es.foldl (fun acc e => acc.set e.Key e.Value) r).get k =
      match lastValue k es with
      | some v => some v
      | none => r.get k := by
  induction es generalizing r with
  | nil => rfl
  | cons e es ih =>
    simp only [List.foldl_cons, lastValue]
    rw [ih]
    cases hl : lastValue k es with
    | some v => rfl
    | none =>
      simp only [Map.get_set]
      by_cases hk : e.Key = k <;> simp [hk]

theorem NewMap_get (k : String) (es : List KeyValue) :
    (NewMap ⟨es⟩).get k = lastValue k es := by
  unfold NewMap Map.Apply
  rw [Map.get_foldl_set]
  cases lastValue k es <;> rfl

theorem lastValue_mem (k : String) (v : Value) (es : List KeyValue)
    (h : lastValue k es = some v) : (⟨k, v⟩ : KeyValue) ∈ es := by
  induction es with
  | nil => simp [lastValue] at h
  | cons e es ih =>
    simp only [lastValue] at h
    cases hl : lastValue k es with
    | some w =>
      rw [hl] at h
      simp only [Option.some.injEq] at h
      subst h
      exact List.mem_cons_of_mem _ (ih hl)
    | none =>
      rw [hl] at h
      by_cases hk : e.Key = k
      · simp only [hk, if_true, Option.some.injEq] at h
        obtain ⟨a, b⟩ := e
        simp only at hk h
        subst hk h
        exact List.mem_cons_self _ _
      · simp [hk] at h

theorem lastValue_of_nodup (es : List KeyValue) (hnd : (es.map KeyValue.Key).Nodup)
    (e : KeyValue) (he : e ∈ es) : lastValue e.Key es = some e.Value := by
  induction es with
  | nil => simp at he
  | cons a as ih =>
    simp only [List.map_cons, List.nodup_cons] at hnd
    simp only [lastValue]
    rcases List.mem_cons.mp he with h | h
    · subst h
      cases hl : lastValue e.Key as with
      | some w =>
        exact absurd (List.mem_map_of_mem KeyValue.Key (lastValue_mem _ _ _ hl)) hnd.1
      | none => simp
    · rw [ih hnd.2 h]

theorem lastValue_none_of_no_key (k : String) (es : List KeyValue)
    (h : ∀ x ∈ es, x.Key ≠ k) : lastValue k es = none := by
  induction es with
  | nil => rfl
  | cons a as ih =>
    have ha : a.Key ≠ k := h a (List.mem_cons_self _ _)
    simp only [lastValue]
    rw [ih (fun x hx => h x (List.mem_cons_of_mem _ hx))]
    simp [ha]

theorem lastValue_of_last (before : List KeyValue) (e : KeyValue) (after : List KeyValue)
    (h : ∀ x ∈ after, x.Key ≠ e.Key) :
    lastValue e.Key (before ++ e :: after) = some e.Value := by
  induction before with
  | nil =>
    simp only [List.nil_append, lastValue]
    rw [lastValue_none_of_no_key e.Key after h]
    simp
  | cons a as ih =>
    show (match lastValue e.Key (as ++ e :: after) with
      | some v => some v
      | none => if a.Key = e.Key then some a.Value else none) = some e.Value
    rw [ih]

/-! ## The run of `Do` -/

theorem Do_of_returns (Extract : Extractor) (h : DeliveryHandle) (msg : Delivery)
    (handle : Handler) (err : Option GoError)
    (hret : handle (h.started Extract msg).1 msg = HandlerResult.returns err) :
    h.Do Extract msg handle =
      ⟨Event.Start (startContext Extract msg) (spanName msg) (startOptions h msg)
          :: Event.Handle (h.started Extract msg).1 msg
          :: (errorEvents (h.started Extract msg).2 err ++ [Event.End (h.started Extract msg).2]),
        Exit.returned⟩ := by
  simp only [DeliveryHandle.Do, handleBody, hret]
  cases err <;> rfl

theorem Do_of_panics (Extract : Extractor) (h : DeliveryHandle) (msg : Delivery)
    (handle : Handler) (v : String)
    (hpanic : handle (h.started Extract msg).1 msg = HandlerResult.panics v) :
    h.Do Extract msg handle =
      ⟨[Event.Start (startContext Extract msg) (spanName msg) (startOptions h msg),
          Event.Handle (h.started Extract msg).1 msg,
          Event.End (h.started Extract msg).2],
        Exit.panicked v⟩ := by
  simp only [DeliveryHandle.Do, handleBody, hpanic]
  rfl

theorem Do_events_shape (Extract : Extractor) (h : DeliveryHandle) (msg : Delivery)
    (handle : Handler) :
    ∃ attrs : List Event, attrs.all Event.isSetAttribute = true ∧
      (h.Do Extract msg handle).events =
        Event.Start (startContext Extract msg) (spanName msg) (startOptions h msg)
          :: Event.Handle (h.started Extract msg).1 msg
          :: (attrs ++ [Event.End (h.started Extract msg).2]) := by
  cases hr : handle (h.started Extract msg).1 msg with
  | returns err =>
    rw [Do_of_returns Extract h msg handle err hr]
    cases err with
    | none => exact ⟨[], rfl, rfl⟩
    | some e => exact ⟨[Event.SetAttribute (h.started Extract msg).2 "error" (AnyValue.ofError e)], rfl, rfl⟩
  | panics v =>
    rw [Do_of_panics Extract h msg handle v hr]
    exact ⟨[], rfl, rfl⟩

theorem Do_start_events (Extract : Extractor) (h : DeliveryHandle) (msg : Delivery)
    (handle : Handler) :
    (h.Do Extract msg handle).events.filter Event.isStart =
      [Event.Start (startContext Extract msg) (spanName msg) (startOptions h msg)] := by
  obtain ⟨attrs, hattrs, hev⟩ := Do_events_shape Extract h msg handle
  rw [hev]
  have hnone : attrs.filter Event.isStart = [] := by
    rw [List.filter_eq_nil_iff]
    intro a ha
    have := List.all_eq_true.mp hattrs a ha
    cases a <;> simp_all [Event.isSetAttribute, Event.isStart]
  simp [List.filter_cons, Event.isStart, hnone]

theorem Do_handle_events (Extract : Extractor) (h : DeliveryHandle) (msg : Delivery)
    (handle : Handler) :
    (h.Do Extract msg handle).events.filter Event.isHandle =
      [Event.Handle (h.started Extract msg).1 msg] := by
  obtain ⟨attrs, hattrs, hev⟩ := Do_events_shape Extract h msg handle
  rw [hev]
  have hnone : attrs.filter Event.isHandle = [] := by
    rw [List.filter_eq_nil_iff]
    intro a ha
    have := List.all_eq_true.mp hattrs a ha
    cases a <;> simp_all [Event.isSetAttribute, Event.isHandle]
  simp [List.filter_cons, Event.isHandle, hnone]

/-! ## The claims -/

/-- Claim C1: when the handler function returns (nil or an error), the run of
`Do` holds exactly one call of the tracer's `Start` and exactly one call of
`End`, and that `End` is on the span this `Start` returned. -/
theorem Do_starts_once_ends_once (Extract : Extractor) (h : DeliveryHandle) (msg : Delivery)
    (handle : Handler) (err : Option GoError)
    (hret : handle (h.started Extract msg).1 msg = HandlerResult.returns err) :
    (h.Do Extract msg handle).events.filter Event.isStart =
        [Event.Start (startContext Extract msg) (spanName msg) (startOptions h msg)] ∧
    (h.Do Extract msg handle).events.filter Event.isEnd =
        [Event.End (h.tracer.Start (startContext Extract msg) (spanName msg)
          (startOptions h msg)).2] ∧
    (h.Do Extract msg handle).events.countP Event.isStart = 1 ∧
    (h.Do Extract msg handle).events.countP Event.isEnd = 1 := by
  rw [Do_of_returns Extract h msg handle err hret]
  cases err <;> exact ⟨rfl, rfl, rfl, rfl⟩

/-- Witness of C1 on a failing handler. -/
theorem Do_starts_once_ends_once_witness :
    boomHandler (sampleHandle.started sampleExtract sampleMsg).1 sampleMsg =
        HandlerResult.returns (some ⟨"boom"⟩) ∧
    (sampleHandle.Do sampleExtract sampleMsg boomHandler).events.countP Event.isStart = 1 ∧
    (sampleHandle.Do sampleExtract sampleMsg boomHandler).events.countP Event.isEnd = 1 :=
  ⟨rfl,
    (Do_starts_once_ends_once sampleExtract sampleHandle sampleMsg boomHandler
      (some ⟨"boom"⟩) rfl).2.2⟩

/-- Claim C2: when the handler returns an error with description `d`, `Do`
calls `SetAttribute` on the span once, with key `error` and the error, before
the span is ended, and the attribute the span gets is `error` with the string
`d` as value; when the handler returns nil, `Do` sets no attribute at all. -/
theorem Do_error_attribute (Extract : Extractor) (h : DeliveryHandle) (msg : Delivery)
    (handle : Handler) (err : Option GoError)
    (hret : handle (h.started Extract msg).1 msg = HandlerResult.returns err) :
    (∀ d : String, err = some ⟨d⟩ →
      (h.Do Extract msg handle).events =
        [Event.Start (startContext Extract msg) (spanName msg) (startOptions h msg),
          Event.Handle (h.started Extract msg).1 msg,
          Event.SetAttribute (h.started Extract msg).2 "error" (AnyValue.ofError ⟨d⟩),
          Event.End (h.started Extract msg).2] ∧
      (h.Do Extract msg handle).events.filterMap
          (Event.attributeOn (h.started Extract msg).2) =
        [⟨"error", Value.STRING d⟩]) ∧
    (err = none →
      (h.Do Extract msg handle).events =
        [Event.Start (startContext Extract msg) (spanName msg) (startOptions h msg),
          Event.Handle (h.started Extract msg).1 msg,
          Event.End (h.started Extract msg).2] ∧
      (h.Do Extract msg handle).events.filter Event.isSetAttribute = [] ∧
      (h.Do Extract msg handle).events.filterMap
          (Event.attributeOn (h.started Extract msg).2) = []) := by
  rw [Do_of_returns Extract h msg handle err hret]
  constructor
  · intro d he
    subst he
    refine ⟨rfl, ?_⟩
    simp [errorEvents, Event.attributeOn, kvInfer, kvString]
  · intro he
    subst he
    exact ⟨rfl, rfl, rfl⟩

/-- Witness of C2 on a handler that fails with `boom`: the span gets the
attribute `error` with value `boom`. -/
theorem Do_error_attribute_witness :
    boomHandler (sampleHandle.started sampleExtract sampleMsg).1 sampleMsg =
        HandlerResult.returns (some ⟨"boom"⟩) ∧
    (sampleHandle.Do sampleExtract sampleMsg boomHandler).events.filterMap
        (Event.attributeOn (sampleHandle.started sampleExtract sampleMsg).2) =
      [⟨"error", Value.STRING "boom"⟩] :=
  ⟨rfl,
    ((Do_error_attribute sampleExtract sampleHandle sampleMsg boomHandler
      (some ⟨"boom"⟩) rfl).1 "boom" rfl).2⟩

/-- Claim C3: when the handler panics, the span `Do` started is ended exactly
once, as the last call before the panic leaves `Do`, and no attribute is set;
and whatever the handler does, the run of `Do` holds exactly one `End`, on the
span that was started, as its last call. -/
theorem Do_ends_span_on_panic (Extract : Extractor) (h : DeliveryHandle) (msg : Delivery)
    (handle : Handler) (v : String)
    (hpanic : handle (h.started Extract msg).1 msg = HandlerResult.panics v) :
    (h.Do Extract msg handle).events =
        [Event.Start (startContext Extract msg) (spanName msg) (startOptions h msg),
          Event.Handle (h.started Extract msg).1 msg,
          Event.End (h.started Extract msg).2] ∧
    (h.Do Extract msg handle).exit = Exit.panicked v ∧
    (h.Do Extract msg handle).events.countP Event.isEnd = 1 ∧
    (h.Do Extract msg handle).events.filter Event.isSetAttribute = [] ∧
    (∀ other : Handler,
      (h.Do Extract msg other).events.filter Event.isEnd = [Event.End (h.started Extract msg).2] ∧
      (h.Do Extract msg other).events.getLast? = some (Event.End (h.started Extract msg).2)) := by
  rw [Do_of_panics Extract h msg handle v hpanic]
  refine ⟨rfl, rfl, rfl, rfl, ?_⟩
  intro other
  cases hr : other (h.started Extract msg).1 msg with
  | returns err =>
    rw [Do_of_returns Extract h msg other err hr]
    cases err <;> exact ⟨rfl, rfl⟩
  | panics w =>
    rw [Do_of_panics Extract h msg other w hr]
    exact ⟨rfl, rfl⟩

/-- Witness of C3 on a handler that panics. -/
theorem Do_ends_span_on_panic_witness :
    panicHandler (sampleHandle.started sampleExtract sampleMsg).1 sampleMsg =
        HandlerResult.panics "index out of range" ∧
    (sampleHandle.Do sampleExtract sampleMsg panicHandler).exit =
        Exit.panicked "index out of range" ∧
    (sampleHandle.Do sampleExtract sampleMsg panicHandler).events.countP Event.isEnd = 1 :=
  ⟨rfl,
    (Do_ends_span_on_panic sampleExtract sampleHandle sampleMsg panicHandler
      "index out of range" rfl).2.1,
    (Do_ends_span_on_panic sampleExtract sampleHandle sampleMsg panicHandler
      "index out of range" rfl).2.2.1⟩

/-- Claim C4: the one span name `Do` passes to `Start` is the exchange, a dot
and the routing key; for exchange `orders` and routing key `created` it is
`orders.created`. -/
theorem Do_span_name (Extract : Extractor) (h : DeliveryHandle) (msg : Delivery)
    (handle : Handler) :
    (h.Do Extract msg handle).events.filterMap Event.startName? =
        [msg.Exchange ++ "." ++ msg.RoutingKey] ∧
    (∀ (headers : Table) (contentType : String) (body : List Nat),
      (h.Do Extract ⟨headers, contentType, "orders", "created", body⟩ handle).events.filterMap
          Event.startName? = ["orders.created"]) := by
  have key : ∀ m : Delivery,
      (h.Do Extract m handle).events.filterMap Event.startName? =
        [m.Exchange ++ "." ++ m.RoutingKey] := by
    intro m
    obtain ⟨attrs, hattrs, hev⟩ := Do_events_shape Extract h m handle
    rw [hev]
    simp only [List.filterMap_cons, Event.startName?, List.filterMap_append, List.filterMap_nil,
      spanName]
    have hnone : attrs.filterMap Event.startName? = [] := by
      rw [List.filterMap_eq_nil_iff]
      intro a ha
      have := List.all_eq_true.mp hattrs a ha
      cases a <;> simp_all [Event.isSetAttribute, Event.startName?]
    rw [hnone]
    rfl
  refine ⟨key msg, ?_⟩
  intro headers contentType body
  rw [key]
  show ["orders" ++ "." ++ "created"] = ["orders.created"]
  decide

/-- Claim C5: the context `Do` hands to `Start` carries as remote span context
exactly the span context `Extract` decoded from the headers and carries no
current span; so a decoded valid context (trace `T`, span `S`, sampled) is the
parent, and a decoded zero value leaves the span without parent (a root). -/
theorem Do_parent (Extract : Extractor) (h : DeliveryHandle) (msg : Delivery)
    (handle : Handler) :
    (h.Do Extract msg handle).events.filter Event.isStart =
        [Event.Start (startContext Extract msg) (spanName msg) (startOptions h msg)] ∧
    RemoteSpanContextFromContext (startContext Extract msg) =
        (Extract Background msg.Headers).2 ∧
    SpanFromContext (startContext Extract msg) = none ∧
    (∀ T S : Nat, (Extract Background msg.Headers).2 = ⟨T, S, 1⟩ → T ≠ 0 → S ≠ 0 →
      parentOf (startContext Extract msg) = Parent.remote ⟨T, S, 1⟩) ∧
    ((Extract Background msg.Headers).2 = EmptySpanContext →
      parentOf (startContext Extract msg) = Parent.root) := by
  have hparent : parentOf (startContext Extract msg) =
      if (Extract Background msg.Headers).2.IsValid then
        Parent.remote (Extract Background msg.Headers).2
      else Parent.root := rfl
  refine ⟨Do_start_events Extract h msg handle, rfl, rfl, ?_, ?_⟩
  · intro T S hsc hT hS
    rw [hparent, hsc]
    simp [SpanContext.IsValid, hT, hS]
  · intro hsc
    rw [hparent, hsc]
    rfl

/-- Both cases of C5 on sample decoders: one that finds trace 10, span 11,
sampled, and one that finds nothing. -/
theorem Do_parent_witness :
    parentOf (startContext sampleExtract sampleMsg) = Parent.remote ⟨10, 11, 1⟩ ∧
    parentOf (startContext emptyExtract sampleMsg) = Parent.root :=
  ⟨(Do_parent sampleExtract sampleHandle sampleMsg okHandler).2.2.2.1 10 11 rfl
      (by decide) (by decide),
    (Do_parent emptyExtract sampleHandle sampleMsg okHandler).2.2.2.2 rfl⟩

/-- Claim C6: the options of the one `Start` call of `Do` carry exactly four
attributes, in this order: `exchange`, `routekey`, `content-type` (the
message's fields) and `component` (the handle's component name). -/
theorem Do_start_attributes (Extract : Extractor) (h : DeliveryHandle) (msg : Delivery)
    (handle : Handler) :
    (h.Do Extract msg handle).events.filter Event.isStart =
        [Event.Start (startContext Extract msg) (spanName msg)
          [ StartOption.WithSpanKind SpanKind.SpanKindServer,
            StartOption.WithAttributes
              [ ⟨"exchange", Value.STRING msg.Exchange⟩,
                ⟨"routekey", Value.STRING msg.RoutingKey⟩,
                ⟨"content-type", Value.STRING msg.ContentType⟩,
                ⟨"component", Value.STRING h.opts.componentName⟩ ] ]] ∧
    ((h.Do Extract msg handle).events.filterMap Event.startOptions?).map
        (fun opts => (startConfig opts).Attributes) =
      [[ ⟨"exchange", Value.STRING msg.Exchange⟩,
         ⟨"routekey", Value.STRING msg.RoutingKey⟩,
         ⟨"content-type", Value.STRING msg.ContentType⟩,
         ⟨"component", Value.STRING h.opts.componentName⟩ ]] := by
  have hstart := Do_start_events Extract h msg handle
  refine ⟨hstart, ?_⟩
  obtain ⟨attrs, hattrs, hev⟩ := Do_events_shape Extract h msg handle
  rw [hev]
  have hnone : attrs.filterMap Event.startOptions? = [] := by
    rw [List.filterMap_eq_nil_iff]
    intro a ha
    have := List.all_eq_true.mp hattrs a ha
    cases a <;> simp_all [Event.isSetAttribute, Event.startOptions?]
  simp only [List.filterMap_cons, Event.startOptions?, List.filterMap_append, hnone,
    List.filterMap_nil, List.nil_append, List.map_cons, List.map_nil]
  rfl

/-- Claim C7: with no option the component label is `net/amqp`; with a
non-empty list of component-name options it is the name of the last one; and
whatever the options, the handle's tracer is the tracer passed in. -/
theorem NewDeliveryHandle_options (tracer : Tracer) :
    (NewDeliveryHandle tracer []).opts.componentName = "net/amqp" ∧
    (∀ (names : List String) (last : String),
      (NewDeliveryHandle tracer
        ((names ++ [last]).map DeliveryHandleComopenentName)).opts.componentName = last) ∧
    (∀ opts : List DeliveryHandleOption, (NewDeliveryHandle tracer opts).tracer = tracer) := by
  refine ⟨rfl, ?_, fun _ => rfl⟩
  intro names last
  simp [NewDeliveryHandle, applyDeliveryHandleOptions, List.foldl_append,
    DeliveryHandleComopenentName]

/-- Claim C8: when the handler returns (nil or an error), `Do` calls it exactly
once, with the message it was given, after `Start` and before `End`, and `Do`
returns normally in both cases. -/
theorem Do_calls_handler_once (Extract : Extractor) (h : DeliveryHandle) (msg : Delivery)
    (handle : Handler) (err : Option GoError)
    (hret : handle (h.started Extract msg).1 msg = HandlerResult.returns err) :
    (h.Do Extract msg handle).events.filter Event.isHandle =
        [Event.Handle (h.started Extract msg).1 msg] ∧
    (h.Do Extract msg handle).events.countP Event.isHandle = 1 ∧
    (∃ attrs : List Event, attrs.all Event.isSetAttribute = true ∧
      (h.Do Extract msg handle).events =
        Event.Start (startContext Extract msg) (spanName msg) (startOptions h msg)
          :: Event.Handle (h.started Extract msg).1 msg
          :: (attrs ++ [Event.End (h.started Extract msg).2])) ∧
    (h.Do Extract msg handle).exit = Exit.returned := by
  refine ⟨Do_handle_events Extract h msg handle, ?_, Do_events_shape Extract h msg handle, ?_⟩
  · rw [List.countP_eq_length_filter, Do_handle_events Extract h msg handle]
    rfl
  · rw [Do_of_returns Extract h msg handle err hret]

/-- Witness of C8: a handler that succeeds and one that fails leave `Do` the
same way. -/
theorem Do_calls_handler_once_witness :
    okHandler (sampleHandle.started sampleExtract sampleMsg).1 sampleMsg =
        HandlerResult.returns none ∧
    boomHandler (sampleHandle.started sampleExtract sampleMsg).1 sampleMsg =
        HandlerResult.returns (some ⟨"boom"⟩) ∧
    (sampleHandle.Do sampleExtract sampleMsg okHandler).exit = Exit.returned ∧
    (sampleHandle.Do sampleExtract sampleMsg boomHandler).exit = Exit.returned ∧
    (sampleHandle.Do sampleExtract sampleMsg boomHandler).events.countP Event.isHandle = 1 :=
  ⟨rfl, rfl,
    (Do_calls_handler_once sampleExtract sampleHandle sampleMsg okHandler none rfl).2.2.2,
    (Do_calls_handler_once sampleExtract sampleHandle sampleMsg boomHandler
      (some ⟨"boom"⟩) rfl).2.2.2,
    (Do_calls_handler_once sampleExtract sampleHandle sampleMsg boomHandler
      (some ⟨"boom"⟩) rfl).2.1⟩

/-- Claim C9, as the code has it: the handler gets the context `Start`
returned; the context given to `Start` is the background context with the map
of the decoded correlation entries and the decoded remote span context on top;
and when the tracer's `Start` keeps the correlation map of its context, the
handler reads under each key the value the decoded entries wrote last: it
reads nothing that is not a decoded entry, it reads every decoded entry that
no later decoded entry with the same key follows, and so every decoded entry
when the decoded keys are distinct. -/
theorem Do_handler_context (Extract : Extractor) (h : DeliveryHandle) (msg : Delivery)
    (handle : Handler) :
    (h.Do Extract msg handle).events.filter Event.isHandle =
        [Event.Handle (h.tracer.Start (startContext Extract msg) (spanName msg)
          (startOptions h msg)).1 msg] ∧
    startContext Extract msg =
        ContextWithRemoteSpanContext
          (ContextWithMap Background (NewMap ⟨(Extract Background msg.Headers).1⟩))
          (Extract Background msg.Headers).2 ∧
    MapFromContext (startContext Extract msg) =
        NewMap ⟨(Extract Background msg.Headers).1⟩ ∧
    ((∀ (ctx : Context) (name : String) (opts : List StartOption),
        MapFromContext (h.tracer.Start ctx name opts).1 = MapFromContext ctx) →
      (∀ k : String, (MapFromContext (h.started Extract msg).1).get k =
          lastValue k (Extract Background msg.Headers).1) ∧
      (∀ (k : String) (v : Value), (MapFromContext (h.started Extract msg).1).get k = some v →
          (⟨k, v⟩ : KeyValue) ∈ (Extract Background msg.Headers).1) ∧
      (∀ (before : List KeyValue) (e : KeyValue) (after : List KeyValue),
          (Extract Background msg.Headers).1 = before ++ e :: after →
          (∀ x ∈ after, x.Key ≠ e.Key) →
          (MapFromContext (h.started Extract msg).1).get e.Key = some e.Value) ∧
      (((Extract Background msg.Headers).1.map KeyValue.Key).Nodup →
        ∀ e ∈ (Extract Background msg.Headers).1,
          (MapFromContext (h.started Extract msg).1).get e.Key = some e.Value)) := by
  refine ⟨Do_handle_events Extract h msg handle, rfl, rfl, ?_⟩
  intro hkeep
  have hmap : MapFromContext (h.started Extract msg).1 =
      NewMap ⟨(Extract Background msg.Headers).1⟩ := by
    unfold DeliveryHandle.started
    rw [hkeep]
    rfl
  refine ⟨?_, ?_, ?_, ?_⟩
  · intro k
    rw [hmap, NewMap_get]
  · intro k v hv
    rw [hmap, NewMap_get] at hv
    exact lastValue_mem k v _ hv
  · intro before e after hsplit hafter
    rw [hmap, NewMap_get, hsplit]
    exact lastValue_of_last before e after hafter
  · intro hnd e he
    rw [hmap, NewMap_get]
    exact lastValue_of_nodup _ hnd e he

/-- Witness of C9: the sample tracer keeps the correlation map, and the sample
handler context holds the entry decoded from the header `user`. -/
theorem Do_handler_context_witness :
    (∀ (ctx : Context) (name : String) (opts : List StartOption),
      MapFromContext (sampleHandle.tracer.Start ctx name opts).1 = MapFromContext ctx) ∧
    (MapFromContext (sampleHandle.started sampleExtract sampleMsg).1).get "user" =
      some (Value.STRING "ann") :=
  ⟨fun _ _ _ => rfl,
    ((Do_handler_context sampleExtract sampleHandle sampleMsg okHandler).2.2.2
      (fun _ _ _ => rfl)).2.2.2 (by decide) ⟨"user", Value.STRING "ann"⟩ (by decide)⟩

/-- Counterexample to C9 as stated: the tracer keeps the correlation map, the
entry `k` = `first` is among the decoded entries, and the handler reads
`second` under `k`, the value a later decoded entry wrote. -/
theorem Do_handler_reads_last_write :
    (∀ (ctx : Context) (name : String) (opts : List StartOption),
      MapFromContext (sampleHandle.tracer.Start ctx name opts).1 = MapFromContext ctx) ∧
    (⟨"k", Value.STRING "first"⟩ : KeyValue) ∈ (twiceExtract Background sampleMsg.Headers).1 ∧
    (MapFromContext (sampleHandle.started twiceExtract sampleMsg).1).get "k" =
      some (Value.STRING "second") ∧
    (MapFromContext (sampleHandle.started twiceExtract sampleMsg).1).get "k" ≠
      some (Value.STRING "first") :=
  ⟨fun _ _ _ => rfl, by decide, by decide, by decide⟩

/-- Claim C10: the options of the one `Start` call of `Do` ask for exactly one
span kind, the server kind, and the configuration they add up to has that
kind, whatever the handle, the message and the handler. -/
theorem Do_span_kind (Extract : Extractor) (h : DeliveryHandle) (msg : Delivery)
    (handle : Handler) :
    ((h.Do Extract msg handle).events.filterMap Event.startOptions?).map requestedKinds =
        [[SpanKind.SpanKindServer]] ∧
    ((h.Do Extract msg handle).events.filterMap Event.startOptions?).map
        (fun opts => (startConfig opts).SpanKind) = [SpanKind.SpanKindServer] := by
  obtain ⟨attrs, hattrs, hev⟩ := Do_events_shape Extract h msg handle
  rw [hev]
  have hnone : attrs.filterMap Event.startOptions? = [] := by
    rw [List.filterMap_eq_nil_iff]
    intro a ha
    have := List.all_eq_true.mp hattrs a ha
    cases a <;> simp_all [Event.isSetAttribute, Event.startOptions?]
  simp only [List.filterMap_cons, Event.startOptions?, List.filterMap_append, hnone,
    List.filterMap_nil, List.nil_append, List.map_cons, List.map_nil]
  exact ⟨rfl, rfl⟩

end amqptrace
